/-
Verification of the extraction-and-aggregation engine of the debate
tournament analyzer (src/app.py).

The Python source is shallowly embedded: cells and column labels are
strings, Python floats are modelled by rationals (every numeric literal
appearing in the checked inputs is exactly representable), dictionaries
(including `defaultdict`) are modelled by insertion-ordered association
lists, and `re` scans are modelled by direct recursive matchers for the
two concrete patterns the source uses.
-/
import Mathlib

set_option maxRecDepth 4000

/-! ## Character classes

`isPyWs` models `\s` of the Python `re` module (ASCII range; the inputs
under consideration are ASCII).  `isPyDigit` models `\d` (ASCII), and
`isAsciiLetter` models the `A-Za-z` ranges of the name pattern in
src/app.py line 39. -/

def isPyWs (c : Char) : Bool :=
  c = ' ' || c = Char.ofNat 9 || c = Char.ofNat 10 || c = Char.ofNat 13 ||
  c = Char.ofNat 11 || c = Char.ofNat 12

def isPyDigit (c : Char) : Bool :=
  '0' ≤ c && c ≤ '9'

def isAsciiLetter (c : Char) : Bool :=
  ('A' ≤ c && c ≤ 'Z') || ('a' ≤ c && c ≤ 'z')

/-- Character class `[A-Za-z\.\'\-\s]` of the name pattern
(src/app.py line 39).  `Char.ofNat 39` is the apostrophe. -/
def isNameChar (c : Char) : Bool :=
  isAsciiLetter c || c = '.' || c = Char.ofNat 39 || c = '-' || isPyWs c

/-! ## String helpers (Python `str.strip`, `str.lower`, `str.startswith`,
`re.sub(r"\s+", " ", ·)`, substring test) -/

/-- Python `str.strip()` on the character list. -/
def stripL (l : List Char) : List Char :=
  ((l.dropWhile (fun c => isPyWs c)).reverse.dropWhile (fun c => isPyWs c)).reverse

/-- Python `str.strip()`. -/
def stripStr (s : String) : String :=
  ⟨stripL s.data⟩

/-- Python `str.lower()` (ASCII). -/
def lowerStr (s : String) : String :=
  ⟨s.data.map Char.toLower⟩

/-- Python `s.startswith(pre)`. -/
def startsWithL (s pre : String) : Bool :=
  pre.data.isPrefixOf s.data

/-- Scanner for `re.sub(r"\s+", " ", ·)`: `prevWs` records whether the
current position is inside a whitespace run whose single replacement
space has already been emitted. -/
def collapseGo : Bool → List Char → List Char
  | _, [] => []
  | prevWs, c :: rest =>
    if isPyWs c then
      if prevWs then collapseGo true rest else ' ' :: collapseGo true rest
    else c :: collapseGo false rest

/-- Python `re.sub(r"\s+", " ", ·)` on a character list: every maximal
whitespace run becomes a single space (src/app.py line 48). -/
def collapseWs (l : List Char) : List Char :=
  collapseGo false l

/-- Python `kw in s` (substring containment) for character lists. -/
def containsSeq : List Char → List Char → Bool
  | p, [] => p.isEmpty
  | p, c :: rest => p.isPrefixOf (c :: rest) || containsSeq p rest

/-- Test `k.lower() in col.lower()` as used by `find_column` (src/app.py
lines 22-29). -/
def lowerContains (col kw : String) : Bool :=
  containsSeq (lowerStr kw).data (lowerStr col).data

/-! ## Decimal numbers: the pattern `\d+(?:\.\d+)?`

`matchNumber` matches the (greedy) number pattern at the head of the
list, returning the value and the unconsumed suffix.  `float` of the
matched text is modelled exactly on `ℚ`; every score literal in the
checked inputs is a finite decimal. -/

def digitsVal (l : List Char) : ℕ :=
  l.foldl (fun a c => a * 10 + (c.toNat - 48)) 0

def matchNumber (l : List Char) : Option (ℚ × List Char) :=
  let ip := l.takeWhile (fun c => isPyDigit c)
  if ip.isEmpty then none
  else
    let r1 := l.drop ip.length
    match r1 with
    | c :: d :: rest =>
      if c = '.' && isPyDigit d then
        let fp := (d :: rest).takeWhile (fun e => isPyDigit e)
        some ((digitsVal ip : ℚ) + (digitsVal fp : ℚ) / (10 : ℚ) ^ fp.length,
              (d :: rest).drop fp.length)
      else some ((digitsVal ip : ℚ), r1)
    | _ => some ((digitsVal ip : ℚ), r1)

/-- The `\s+` separator followed by the number: the whitespace run is
greedy, and since no whitespace character is a digit, backtracking inside
the run can never help — the number must begin right after the maximal
run. -/
def matchTail (l : List Char) : Option (ℚ × List Char) :=
  let ws := l.takeWhile (fun c => isPyWs c)
  if ws.isEmpty then none else matchNumber (l.drop ws.length)

/-- The lazy name group `[A-Za-z\.\'\-\s]{2,}?` of src/app.py line 39:
`acc` holds the (≥ 2) characters taken so far; the engine first tries to
finish the match (`\s+` then the number) and only then extends the name
by one more class character, exactly the preference order of a lazy
quantifier. -/
def growName (acc : List Char) : List Char → Option (List Char × ℚ × List Char)
  | [] => none
  | c :: rest =>
    match matchTail (c :: rest) with
    | some (q, r) => some (acc, q, r)
    | none => if isNameChar c then growName (acc ++ [c]) rest else none

/-- One attempt of the full pair pattern anchored at the head of the
list: at least two name-class characters, then `\s+`, then the number. -/
def matchPairAt : List Char → Option (List Char × ℚ × List Char)
  | c1 :: c2 :: rest =>
    if isNameChar c1 && isNameChar c2 then growName [c1, c2] rest else none
  | _ => none

/-- Model of `re.findall` for the pair pattern: positions are tried left to right,
and after a match scanning resumes at the match end (non-overlapping).
The fuel argument bounds the number of scanning steps; the callers pass
the text length, which suffices since every step consumes at least one
character. -/
def findPairsF : ℕ → List Char → List (List Char × ℚ)
  | 0, _ => []
  | _, [] => []
  | fuel + 1, c :: rest =>
    match matchPairAt (c :: rest) with
    | some (nm, q, r) => (nm, q) :: findPairsF fuel r
    | none => findPairsF fuel rest

/-- Model of `extract_name_score_pairs` (src/app.py lines 32-50): find all
name/number pairs, strip each captured name, drop pairs whose stripped
name is empty, and collapse internal whitespace runs in the kept names. -/
def extract_name_score_pairs (text : String) : List (String × ℚ) :=
  (findPairsF text.data.length text.data).filterMap (fun p =>
    let nm := stripL p.1
    if nm.isEmpty then none else some (⟨collapseWs nm⟩, p.2))

/-- Model of `re.findall(r"\d+(?:\.\d+)?", ·)` for `extract_numbers`. -/
def findNumsF : ℕ → List Char → List ℚ
  | 0, _ => []
  | _, [] => []
  | fuel + 1, c :: rest =>
    if isPyDigit c then
      match matchNumber (c :: rest) with
      | some (q, r) => q :: findNumsF fuel r
      | none => findNumsF fuel rest
    else findNumsF fuel rest

/-- Model of `extract_numbers` (src/app.py lines 53-55). -/
def extract_numbers (text : String) : List ℚ :=
  findNumsF text.data.length text.data

/-! ## Column resolution (src/app.py lines 22-29 and 162-182)

A round file (one uploaded CSV) is a list of column labels plus a list
of rows; a row maps column labels to cell strings (`row.get(col, "")`
returns `""` for an absent column). -/

def affKw : String := "aff"
def affSpaceKw : String := "aff "
def negKw : String := "neg"
def negSpaceKw : String := "neg "
def teamKw : String := "team"
def winKw : String := "win"
def winnerKw : String := "winner"
def pointKw : String := "point"

/-- Model of `find_column(columns, *keywords)` (src/app.py lines 22-29): first
column whose lowercased label contains every lowercased keyword. -/
def find_column (cols : List String) (kws : List String) : Option String :=
  cols.find? (fun c => kws.all (fun k => lowerContains c k))

/-- Resolution chain for the affirmative team column (src/app.py
lines 164 and 172-173): keyword containment first, then the
`startswith("aff")` fallback. -/
def affColOf (cols : List String) : Option String :=
  match find_column cols [affKw] with
  | some c => some c
  | none =>
    match find_column cols [affSpaceKw, teamKw] with
    | some c => some c
    | none =>
      match find_column cols [affKw, teamKw] with
      | some c => some c
      | none => cols.find? (fun c => startsWithL (lowerStr c) affKw)

/-- Resolution chain for the negative team column (src/app.py
lines 165 and 174-175). -/
def negColOf (cols : List String) : Option String :=
  match find_column cols [negKw] with
  | some c => some c
  | none =>
    match find_column cols [negSpaceKw, teamKw] with
    | some c => some c
    | none =>
      match find_column cols [negKw, teamKw] with
      | some c => some c
      | none => cols.find? (fun c => startsWithL (lowerStr c) negKw)

/-- Resolution chain for the winner column (src/app.py lines 166 and
176-177). -/
def winColOf (cols : List String) : Option String :=
  match find_column cols [winKw] with
  | some c => some c
  | none =>
    match find_column cols [winnerKw] with
    | some c => some c
    | none => cols.find? (fun c => lowerContains c winKw)

/-- Affirmative points column (src/app.py line 169). -/
def affPointsColOf (cols : List String) : Option String :=
  cols.find? (fun c => lowerContains c affKw && lowerContains c pointKw)

/-- Negative points column (src/app.py line 170). -/
def negPointsColOf (cols : List String) : Option String :=
  cols.find? (fun c => lowerContains c negKw && lowerContains c pointKw)

/-- The resolved column roles of one round file. -/
structure ColsR where
  aff_col : String
  neg_col : String
  win_col : Option String
  aff_points_col : Option String
  neg_points_col : Option String

/-- The guard of src/app.py lines 180-182: the round file is usable only
when both team columns resolved; the other three roles are optional. -/
def resolveCols (cols : List String) : Option ColsR :=
  match affColOf cols, negColOf cols with
  | some a, some n =>
    some ⟨a, n, winColOf cols, affPointsColOf cols, negPointsColOf cols⟩
  | _, _ => none

/-! ## Rows and dictionaries -/

/-- One table row: an assignment of cell strings to column labels. -/
abbrev Row := List (String × String)

/-- Cell read `str(row.get(col, ""))`. -/
def rowGet (row : Row) (col : String) : String :=
  match row with
  | [] => ""
  | p :: rest => if p.1 = col then p.2 else rowGet rest col

/-- Cell read through an optional column (`... if col else ""`). -/
def rowGetOpt (row : Row) (col : Option String) : String :=
  match col with
  | none => ""
  | some c => rowGet row c

/-- One uploaded round CSV: its (cleaned) column labels and its rows. -/
structure RoundDf where
  cols : List String
  rows : List Row

/-- Python dict lookup with default (`d.get(k, dflt)` /
`defaultdict.__getitem__` before writing). -/
def getStat {β : Type} (m : List (String × β)) (k : String) (d : β) : β :=
  match m with
  | [] => d
  | p :: rest => if p.1 = k then p.2 else getStat rest k d

/-- Python dict update `d[k] = f(d.get(k, dflt))`: overwrite in place if
the key is present, else append (insertion order, as for `dict`). -/
def updStat {β : Type} (m : List (String × β)) (k : String) (d : β) (f : β → β) :
    List (String × β) :=
  match m with
  | [] => [(k, f d)]
  | p :: rest => if p.1 = k then (k, f p.2) :: rest else p :: updStat rest k d f

/-! ## Per-round normalization and per-tournament accumulation
(src/app.py lines 150-248) -/

/-- Per-team accumulators `team_wins` / `team_rounds` / `team_speaks`
(src/app.py lines 151-153), fused into one record: the three dicts are
always touched together and on the same key. -/
structure TeamStats where
  wins : ℕ
  rounds : ℕ
  speaks : ℚ
  deriving DecidableEq

def TeamStats.init : TeamStats := ⟨0, 0, 0⟩

/-- Per-speaker accumulators `speaker_total_speaks` / `speaker_rounds` /
`speaker_wins` (src/app.py lines 155-157), likewise fused: the rows are
read back with `.get(name, 0)`, so a never-written component is 0
exactly as an absent key is. -/
structure SpkStats where
  speaks : ℚ
  rounds : ℕ
  wins : ℕ
  deriving DecidableEq

def SpkStats.init : SpkStats := ⟨0, 0, 0⟩

/-- The per-tournament accumulation state. -/
structure TState where
  teams : List (String × TeamStats)
  spks : List (String × SpkStats)
  deriving DecidableEq

def TState.init : TState := ⟨[], []⟩

/-- Winner cell: `str(row.get(win_col, "")).strip() if win_col else ""`
(src/app.py line 193). -/
def winnerVal (win_col : Option String) (row : Row) : String :=
  match win_col with
  | none => ""
  | some c => stripStr (rowGet row c)

/-- Classification `winner_val.lower().startswith("aff")` (src/app.py line 194). -/
def classifyAff (v : String) : Bool :=
  startsWithL (lowerStr v) affKw

/-- Classification `winner_val.lower().startswith("neg")` (src/app.py line 195). -/
def classifyNeg (v : String) : Bool :=
  startsWithL (lowerStr v) negKw

/-- Name/score pairs for one side including the numeric fallback
(src/app.py lines 201-215): if no pairs parse, average all bare numbers
and split evenly between two placeholder speakers; `side` is the
"Aff"/"Neg" prefix of the placeholder names. -/
def sidePairs (side : String) (blob : String) : List (String × ℚ) :=
  let ps := extract_name_score_pairs blob
  if ps.isEmpty then
    let ns := extract_numbers blob
    if ns.isEmpty then []
    else
      let teamSpeaks := ns.sum / (ns.length : ℚ)
      [(side ++ " Speaker 1", teamSpeaks / 2), (side ++ " Speaker 2", teamSpeaks / 2)]
  else ps

def affSide : String := "Aff"
def negSide : String := "Neg"

/-- Team aggregate update (src/app.py lines 222-229): skipped entirely
when the stripped team cell is empty. -/
def addTeam (m : List (String × TeamStats)) (team : String) (win : Bool) (spk : ℚ) :
    List (String × TeamStats) :=
  if team = "" then m
  else updStat m team TeamStats.init
    (fun s => ⟨s.wins + (if win then 1 else 0), s.rounds + 1, s.speaks + spk⟩)

/-- Speaker aggregate update for one side's pair list (src/app.py
lines 232-248): each name is stripped again, empty names are skipped,
and a win is credited to every speaker of a winning side. -/
def addSpeakers (m : List (String × SpkStats)) (win : Bool) (ps : List (String × ℚ)) :
    List (String × SpkStats) :=
  ps.foldl (fun acc p =>
    let n := stripStr p.1
    if n = "" then acc
    else updStat acc n SpkStats.init
      (fun s => ⟨s.speaks + p.2, s.rounds + 1, s.wins + (if win then 1 else 0)⟩)) m

/-- Processing of one table row (src/app.py lines 185-248). -/
def processRow (cl : ColsR) (st : TState) (row : Row) : TState :=
  let aff_team := stripStr (rowGet row cl.aff_col)
  let neg_team := stripStr (rowGet row cl.neg_col)
  let winner_val := winnerVal cl.win_col row
  let aff_win := classifyAff winner_val
  let neg_win := classifyNeg winner_val
  let aff_pairs := sidePairs affSide (rowGetOpt row cl.aff_points_col)
  let neg_pairs := sidePairs negSide (rowGetOpt row cl.neg_points_col)
  let aff_speaks := (aff_pairs.map Prod.snd).sum
  let neg_speaks := (neg_pairs.map Prod.snd).sum
  let teams1 := addTeam st.teams aff_team aff_win aff_speaks
  let teams2 := addTeam teams1 neg_team neg_win neg_speaks
  let spks1 := addSpeakers st.spks aff_win aff_pairs
  let spks2 := addSpeakers spks1 neg_win neg_pairs
  ⟨teams2, spks2⟩

/-- Processing of one round file (src/app.py lines 160-248): if the team
columns cannot be resolved, the file is skipped and a warning naming the
tournament (and showing its columns) is recorded; otherwise every row is
processed in order. -/
def processDf (tname : String) (acc : TState × List (String × List String))
    (df : RoundDf) : TState × List (String × List String) :=
  match resolveCols df.cols with
  | none => (acc.1, acc.2 ++ [(tname, df.cols)])
  | some cl => (df.rows.foldl (processRow cl) acc.1, acc.2)

/-- All round files of one tournament, with the accumulated warnings. -/
def processTournamentRounds (tname : String) (dfs : List RoundDf) :
    TState × List (String × List String) :=
  dfs.foldl (processDf tname) (TState.init, [])

/-! ## Rounding and rates -/

/-- Guarded rate `wins / rounds_played if rounds_played > 0 else 0.0`
(src/app.py lines 256, 318, 349). -/
def winPct (w r : ℕ) : ℚ :=
  if 0 < r then (w : ℚ) / (r : ℚ) else 0

/-- Round-half-to-even on a rational, the tie-breaking rule of Python 3
`round`. -/
def roundHalfEven (x : ℚ) : ℤ :=
  let n := Int.floor x
  let r := x - (n : ℚ)
  if r < 1 / 2 then n
  else if 1 / 2 < r then n + 1
  else if n % 2 = 0 then n else n + 1

/-- Python `round(x, d)` modelled exactly on rationals (the engine's
floats carry binary representation error that the model elides; every
checked value is representable). -/
def pyRound (x : ℚ) (d : ℕ) : ℚ :=
  (roundHalfEven (x * (10 : ℚ) ^ d) : ℚ) / (10 : ℚ) ^ d

/-! ## Leaderboard rows (src/app.py lines 250-305)

The builders below produce the rows in accumulator (insertion) order;
the subsequent `DataFrame.sort_values` display step reorders them for
rendering and is outside the modelled engine state. -/

/-- One record of the per-tournament team table (src/app.py
lines 257-263). -/
structure TeamRow where
  team : String
  wins : ℕ
  rounds : ℕ
  winPctF : ℚ
  speaksF : ℚ
  deriving DecidableEq

/-- Builder of `team_rows` (src/app.py lines 251-263): `Win%` is
`round(win_pct, 3)` and `Total Speaks` is `round(speaks, 2)`. -/
def teamRowsOf (m : List (String × TeamStats)) : List TeamRow :=
  m.map (fun p =>
    ⟨p.1, p.2.wins, p.2.rounds, pyRound (winPct p.2.wins p.2.rounds) 3,
     pyRound p.2.speaks 2⟩)

/-- One record of the per-tournament speaker table (src/app.py
lines 281-286). -/
structure SpkRow where
  name : String
  totalF : ℚ
  rounds : ℕ
  wins : ℕ
  deriving DecidableEq

/-- Builder of `speaker_rows` (src/app.py lines 279-286). -/
def spkRowsOf (m : List (String × SpkStats)) : List SpkRow :=
  m.map (fun p => ⟨p.1, pyRound p.2.speaks 2, p.2.rounds, p.2.wins⟩)

/-! ## Cross-tournament accumulation (src/app.py lines 134-144, 264-291,
301-303, 313-356) -/

/-- Cross-tournament team accumulators `cross_team_wins` /
`cross_team_rounds` / `cross_team_speaks_total` /
`cross_team_tournaments_attended`, fused on their shared key. -/
structure CTeam where
  wins : ℕ
  rounds : ℕ
  speaks : ℚ
  attended : ℕ
  deriving DecidableEq

def CTeam.init : CTeam := ⟨0, 0, 0, 0⟩

/-- Cross-tournament speaker accumulators: the per-tournament totals map
`cross_speaker_speaks_by_tournament[name]` plus `cross_speaker_wins` and
`cross_speaker_rounds`. -/
structure CSpk where
  perT : List (String × ℚ)
  wins : ℕ
  rounds : ℕ
  deriving DecidableEq

def CSpk.init : CSpk := ⟨[], 0, 0⟩

structure CrossState where
  teams : List (String × CTeam)
  spks : List (String × CSpk)
  deriving DecidableEq

def CrossState.init : CrossState := ⟨[], []⟩

/-- Folding one processed tournament into the cross-tournament
accumulators: the team additions of src/app.py lines 264-267, the
attendance count of lines 301-303, and the speaker additions of
lines 287-291. -/
def mergeTournament (cs : CrossState) (tname : String) (st : TState) : CrossState :=
  let teams := st.teams.foldl (fun acc p =>
    updStat acc p.1 CTeam.init (fun c =>
      ⟨c.wins + p.2.wins, c.rounds + p.2.rounds, c.speaks + p.2.speaks,
       c.attended + 1⟩)) cs.teams
  let spks := st.spks.foldl (fun acc p =>
    updStat acc p.1 CSpk.init (fun c =>
      ⟨updStat c.perT tname 0 (fun q => q + p.2.speaks),
       c.wins + p.2.wins, c.rounds + p.2.rounds⟩)) cs.spks
  ⟨teams, spks⟩

/-- One step of the "Process All Tournaments" loop (src/app.py
lines 147-305): process the tournament, merge it into the cross
accumulators, keep its warnings. -/
def processStep (acc : CrossState × List (String × List String))
    (t : String × List RoundDf) : CrossState × List (String × List String) :=
  let pr := processTournamentRounds t.1 t.2
  (mergeTournament acc.1 t.1 pr.1, acc.2 ++ pr.2)

/-- The "Process All Tournaments" pass (src/app.py lines 129-305):
every stored tournament is processed, in storage order, and merged into
the cross-tournament accumulators; the warnings of all tournaments are
collected. -/
def processAll (ts : List (String × List RoundDf)) :
    CrossState × List (String × List String) :=
  ts.foldl processStep (CrossState.init, [])

/-- One record of the cross-tournament team table (src/app.py
lines 321-328): `Win%` is `round(win_pct, 4)`. -/
structure CTeamRow where
  team : String
  wins : ℕ
  rounds : ℕ
  winPctF : ℚ
  speaksF : ℚ
  attended : ℕ
  deriving DecidableEq

/-- Builder of `cross_team_rows` (src/app.py lines 313-328). -/
def crossTeamRowsOf (cs : CrossState) : List CTeamRow :=
  cs.teams.map (fun p =>
    ⟨p.1, p.2.wins, p.2.rounds, pyRound (winPct p.2.wins p.2.rounds) 4,
     pyRound p.2.speaks 2, p.2.attended⟩)

/-- One record of the cross-tournament speaker table (src/app.py
lines 350-356). -/
structure CSpkRow where
  name : String
  avgPerTF : ℚ
  totalF : ℚ
  attended : ℕ
  winPctF : ℚ
  deriving DecidableEq

/-- Builder of `speaker_overall_rows` (src/app.py lines 339-356): a speaker with an
empty per-tournament map is skipped (`continue`), otherwise the
per-tournament totals are summed and averaged over the tournaments
attended. -/
def crossSpkRowsOf (cs : CrossState) : List CSpkRow :=
  cs.spks.filterMap (fun p =>
    let att : Nat := p.2.perT.length
    if att = 0 then none
    else
      let totalSum := (p.2.perT.map Prod.snd).sum
      some ⟨p.1, pyRound (totalSum / (att : ℚ)) 3, pyRound totalSum 2, att,
            pyRound (winPct p.2.wins p.2.rounds) 4⟩)

/-! ## Accessors used in statements -/

/-- Cross-tournament speaker accumulator cell for a name. -/
def csGet (cs : CrossState) (name : String) : CSpk :=
  getStat cs.spks name CSpk.init

/-- Sum of a speaker's recorded per-tournament totals
(`sum(tournament_map.values())` of src/app.py line 345). -/
def csTotal (cs : CrossState) (name : String) : ℚ :=
  ((csGet cs name).perT.map Prod.snd).sum

/-- Cross-tournament team accumulator cell for a team. -/
def ctGet (cs : CrossState) (team : String) : CTeam :=
  getStat cs.teams team CTeam.init

/-- A speaker's accumulated totals in one processed tournament. -/
def perSpk (tname : String) (dfs : List RoundDf) (name : String) : SpkStats :=
  getStat (processTournamentRounds tname dfs).1.spks name SpkStats.init

/-- A team's accumulated totals in one processed tournament. -/
def perTeam (tname : String) (dfs : List RoundDf) (team : String) : TeamStats :=
  getStat (processTournamentRounds tname dfs).1.teams team TeamStats.init

/-- Distinct first components (the key set of a modelled dictionary;
every map the engine builds has this property). -/
def NodupKeys {β : Type} (m : List (String × β)) : Prop :=
  (m.map Prod.fst).Nodup

/-- No two adjacent whitespace characters (the shape `re.sub(r"\s+", " ", ·)`
guarantees). -/
def noRepWs (l : List Char) : Prop :=
  List.Chain' (fun a b => ¬(isPyWs a = true ∧ isPyWs b = true)) l

/-! ## Definitions following the specification's words

src/app.py computes none of the quantities below; they are written from
the specification text purely to be compared against what the engine
actually does. -/

/-- From the spec, §4.5: recency weight `max(0, 1.0 − 0.2×i)` for the
i-th most recent selected tournament. -/
def specRecencyWeight (i : ℕ) : ℚ :=
  max 0 (1 - (i : ℚ) / 5)

/-- From the spec, §4.5 and claim C1: keep only the last `n` tournaments
of the ordered collection and weight each selected tournament's
per-speaker total by its recency weight (level weight at its default
1.0). -/
def specSelectedWeightedTotal (n : ℕ) (ts : List (String × List RoundDf))
    (name : String) : ℚ :=
  let sel := ts.drop (ts.length - n)
  (List.zipWith (fun t i => specRecencyWeight i * (perSpk t.1 t.2 name).speaks)
    sel.reverse (List.range sel.length)).sum

/-- From the spec, §3: `DuoKey`, the unordered pair of names
canonicalized by sorting lexicographically. -/
def specDuoKey (a b : String) : String × String :=
  if a ≤ b then (a, b) else (b, a)

/-- From the spec, §4.4: a side with participants `names` yields one duo
per unordered pair of them. -/
def specDuoPairs : List String → List (String × String)
  | [] => []
  | a :: rest => rest.map (fun b => specDuoKey a b) ++ specDuoPairs rest

/-! ## Concrete inputs used by witnesses and counterexamples -/

/-- The single-round scenario of spec §8. -/
def scRow : Row :=
  [("Aff", "Team X"), ("Neg", "Team Y"), ("Win", "Aff"),
   ("Aff Points", "Alice 28.5 Bob 27.0"), ("Neg Points", "Carol 26 Dave 25")]

def scDf : RoundDf :=
  ⟨["Aff", "Neg", "Win", "Aff Points", "Neg Points"], [scRow]⟩

def scName : String := "Scenario"

/-- Four one-round tournaments in which Alice scores 30 each time. -/
def w1Df : RoundDf :=
  ⟨["Aff", "Neg", "Win", "Aff Points"],
   [[("Aff", "TX"), ("Neg", "TY"), ("Win", "Aff"), ("Aff Points", "Alice 30")]]⟩

def c1Input : List (String × List RoundDf) :=
  [("T1", [w1Df]), ("T2", [w1Df]), ("T3", [w1Df]), ("T4", [w1Df])]

/-- A round file without points columns in which TX wins 1 of 3 rounds. -/
def c3Row (w : String) : Row :=
  [("Aff", "TX"), ("Neg", "TY"), ("Win", w)]

def c3Df : RoundDf :=
  ⟨["Aff", "Neg", "Win"], [c3Row ("Aff"), c3Row ("Neg"), c3Row ("Neg")]⟩

/-- A round file in which TX wins its single round. -/
def c6Df1 : RoundDf :=
  ⟨["Aff", "Neg", "Win"], [c3Row ("Aff")]⟩

/-- A round file in which TX loses all three rounds. -/
def c6Df0 : RoundDf :=
  ⟨["Aff", "Neg", "Win"], [c3Row ("Neg"), c3Row ("Neg"), c3Row ("Neg")]⟩

/-- Two tournaments: TX goes 1-0, then 0-3.  Pooled win rate 1/4; the
mean of the per-tournament win rates would be 1/2. -/
def c6Input : List (String × List RoundDf) :=
  [("T1", [c6Df1]), ("T2", [c6Df0])]

/-- A row whose affirmative team cell is whitespace only. -/
def c10Row : Row :=
  [("Aff", "  "), ("Neg", "Team Y"), ("Win", "Aff"),
   ("Aff Points", "Alice 28.5 Bob 27.0"), ("Neg Points", "Carol 26 Dave 25")]

def c10Df : RoundDf :=
  ⟨["Aff", "Neg", "Win", "Aff Points", "Neg Points"], [c10Row]⟩

/-- A round file whose team columns cannot be resolved. -/
def badDf : RoundDf :=
  ⟨["Alpha", "Beta"], [[("Alpha", "x"), ("Beta", "y")]]⟩

/-! ## Named accessors for the row-level quantities of src/app.py
lines 185-219 (used to state properties of `processRow`) -/

def affTeamOf (cl : ColsR) (row : Row) : String :=
  stripStr (rowGet row cl.aff_col)

def negTeamOf (cl : ColsR) (row : Row) : String :=
  stripStr (rowGet row cl.neg_col)

def winnerOf (cl : ColsR) (row : Row) : String :=
  winnerVal cl.win_col row

def affPairsOf (cl : ColsR) (row : Row) : List (String × ℚ) :=
  sidePairs affSide (rowGetOpt row cl.aff_points_col)

def negPairsOf (cl : ColsR) (row : Row) : List (String × ℚ) :=
  sidePairs negSide (rowGetOpt row cl.neg_points_col)

/-! # Proofs

## Dictionary lemmas -/

lemma getStat_updStat_self {β : Type} (m : List (String × β)) (k : String) (d : β)
    (f : β → β) : getStat (updStat m k d f) k d = f (getStat m k d) := by
  induction m with
  | nil => simp [getStat, updStat]
  | cons p rest ih =>
    by_cases h : p.1 = k
    · simp [getStat, updStat, h]
    · simp [getStat, updStat, h, ih]

lemma getStat_updStat_ne {β : Type} (m : List (String × β)) (k j : String) (d e : β)
    (f : β → β) (h : j ≠ k) : getStat (updStat m k d f) j e = getStat m j e := by
  have hkj : ¬(k = j) := fun hc => h hc.symm
  induction m with
  | nil => simp [getStat, updStat, hkj]
  | cons p rest ih =>
    by_cases hp : p.1 = k
    · simp [getStat, updStat, hp, hkj, h]
    · by_cases hj : p.1 = j <;> simp [getStat, updStat, hp, hj, ih, h, hkj]

lemma keys_updStat {β : Type} (m : List (String × β)) (k : String) (d : β) (f : β → β) :
    (updStat m k d f).map Prod.fst =
      if k ∈ m.map Prod.fst then m.map Prod.fst else m.map Prod.fst ++ [k] := by
  induction m with
  | nil => simp [updStat]
  | cons p rest ih =>
    by_cases h : p.1 = k
    · simp [updStat, h]
    · have : ¬(k = p.1) := fun hc => h hc.symm
      by_cases hk : k ∈ rest.map Prod.fst <;> simp [updStat, h, this, hk, ih]

lemma nodupKeys_updStat {β : Type} (m : List (String × β)) (k : String) (d : β)
    (f : β → β) (h : NodupKeys m) : NodupKeys (updStat m k d f) := by
  unfold NodupKeys at *
  rw [keys_updStat]
  by_cases hk : k ∈ m.map Prod.fst
  · simpa [hk] using h
  · simp only [hk, if_false]
    rw [List.nodup_append]
    refine ⟨h, List.nodup_singleton _, ?_⟩
    intro a ha hmem
    rcases List.mem_singleton.mp hmem with rfl
    exact hk ha

lemma sum_updStat_add (m : List (String × ℚ)) (k : String) (v : ℚ) :
    ((updStat m k 0 (fun q => q + v)).map Prod.snd).sum = (m.map Prod.snd).sum + v := by
  induction m with
  | nil => simp [updStat]
  | cons p rest ih =>
    by_cases h : p.1 = k
    · simp only [updStat, h, if_true, List.map_cons, List.sum_cons]
      ring
    · simp only [updStat, h, if_false, List.map_cons, List.sum_cons, ih]
      ring

lemma getStat_foldl_upd_not_mem {β γ : Type} (g : γ → β → β) (d : β)
    (ps : List (String × γ)) (m : List (String × β)) (k : String)
    (hk : k ∉ ps.map Prod.fst) :
    getStat (ps.foldl (fun acc p => updStat acc p.1 d (g p.2)) m) k d = getStat m k d := by
  induction ps generalizing m with
  | nil => rfl
  | cons p rest ih =>
    simp only [List.map_cons, List.mem_cons, not_or] at hk
    simp only [List.foldl_cons]
    rw [ih _ hk.2, getStat_updStat_ne _ _ _ _ _ _ hk.1]

lemma getStat_foldl_upd_mem {β γ : Type} (g : γ → β → β) (d : β)
    (ps : List (String × γ)) (m : List (String × β)) (k : String) (v : γ)
    (hmem : (k, v) ∈ ps) (hnd : (ps.map Prod.fst).Nodup) :
    getStat (ps.foldl (fun acc p => updStat acc p.1 d (g p.2)) m) k d =
      g v (getStat m k d) := by
  induction ps generalizing m with
  | nil => cases hmem
  | cons p rest ih =>
    simp only [List.map_cons, List.nodup_cons] at hnd
    simp only [List.foldl_cons]
    by_cases hp1 : p.1 = k
    · have hk : k ∉ rest.map Prod.fst := hp1 ▸ hnd.1
      have hv : p.2 = v := by
        rcases List.mem_cons.mp hmem with heq | hrest
        · exact (congrArg Prod.snd heq).symm
        · exact absurd (List.mem_map.mpr ⟨(k, v), hrest, rfl⟩) hk
      rw [hp1, getStat_foldl_upd_not_mem _ _ _ _ _ hk, getStat_updStat_self, hv]
    · have hrest : (k, v) ∈ rest := by
        rcases List.mem_cons.mp hmem with heq | hrest
        · exact absurd (congrArg Prod.fst heq).symm hp1
        · exact hrest
      rw [ih _ hrest hnd.2]
      rw [getStat_updStat_ne _ _ _ _ _ _ (fun hc => hp1 hc.symm)]

/-! ## Team update lemmas -/

attribute [ext] TeamStats SpkStats CTeam CSpk

lemma addTeam_empty (m : List (String × TeamStats)) (w : Bool) (s : ℚ) :
    addTeam m ("") w s = m := by
  simp [addTeam]

lemma getStat_addTeam_self (m : List (String × TeamStats)) (team : String) (w : Bool)
    (s : ℚ) (ht : team ≠ "") :
    getStat (addTeam m team w s) team TeamStats.init =
      ⟨(getStat m team TeamStats.init).wins + (if w then 1 else 0),
       (getStat m team TeamStats.init).rounds + 1,
       (getStat m team TeamStats.init).speaks + s⟩ := by
  simp [addTeam, ht, getStat_updStat_self]

lemma getStat_addTeam_ne (m : List (String × TeamStats)) (team j : String) (w : Bool)
    (s : ℚ) (hj : j ≠ team) :
    getStat (addTeam m team w s) j TeamStats.init = getStat m j TeamStats.init := by
  by_cases ht : team = ""
  · simp [addTeam, ht]
  · simp [addTeam, ht, getStat_updStat_ne _ _ _ _ _ _ hj]

lemma wins_addTeam_false (m : List (String × TeamStats)) (team j : String) (s : ℚ) :
    (getStat (addTeam m team false s) j TeamStats.init).wins =
      (getStat m j TeamStats.init).wins := by
  by_cases ht : team = ""
  · simp [addTeam, ht]
  · by_cases hj : j = team
    · subst hj
      simp [addTeam, ht, getStat_updStat_self]
    · simp [addTeam, ht, getStat_updStat_ne _ _ _ _ _ _ hj]

lemma nodupKeys_addTeam (m : List (String × TeamStats)) (team : String) (w : Bool)
    (s : ℚ) (h : NodupKeys m) : NodupKeys (addTeam m team w s) := by
  by_cases ht : team = ""
  · simpa [addTeam, ht] using h
  · simpa [addTeam, ht] using nodupKeys_updStat _ _ _ _ h

/-! ## Speaker update lemmas -/

lemma getStat_addSpeakers (w : Bool) (ps : List (String × ℚ))
    (m : List (String × SpkStats)) (n : String) (hn : n ≠ "") :
    getStat (addSpeakers m w ps) n SpkStats.init =
      ⟨(getStat m n SpkStats.init).speaks +
         (((ps.filter (fun p => stripStr p.1 = n)).map Prod.snd).sum),
       (getStat m n SpkStats.init).rounds + (ps.filter (fun p => stripStr p.1 = n)).length,
       (getStat m n SpkStats.init).wins +
         (if w then (ps.filter (fun p => stripStr p.1 = n)).length else 0)⟩ := by
  induction ps generalizing m with
  | nil => simp [addSpeakers]
  | cons p rest ih =>
    by_cases hx : stripStr p.1 = ""
    · have h0 : ¬("" = n) := fun hc => hn hc.symm
      simpa [addSpeakers, hx, h0, List.filter_cons] using ih m
    · by_cases hxn : stripStr p.1 = n
      · have step : addSpeakers m w (p :: rest) =
            addSpeakers (updStat m n SpkStats.init
              (fun s => ⟨s.speaks + p.2, s.rounds + 1,
                         s.wins + (if w then 1 else 0)⟩)) w rest := by
          simp [addSpeakers, hx, hxn, hn]
        rw [step, ih, getStat_updStat_self]
        ext
        · simp [List.filter_cons, hxn]
          ring
        · simp [List.filter_cons, hxn]
          ring
        · simp [List.filter_cons, hxn]
          cases w
          · simp
          · simp
            ring
      · have step : addSpeakers m w (p :: rest) =
            addSpeakers (updStat m (stripStr p.1) SpkStats.init
              (fun s => ⟨s.speaks + p.2, s.rounds + 1,
                         s.wins + (if w then 1 else 0)⟩)) w rest := by
          simp [addSpeakers, hx]
        rw [step, ih, getStat_updStat_ne _ _ _ _ _ _ (fun hc => hxn hc.symm)]
        simp [List.filter_cons, hxn]

lemma wins_addSpeakers_false (ps : List (String × ℚ)) (m : List (String × SpkStats))
    (n : String) :
    (getStat (addSpeakers m false ps) n SpkStats.init).wins =
      (getStat m n SpkStats.init).wins := by
  induction ps generalizing m with
  | nil => simp [addSpeakers]
  | cons p rest ih =>
    by_cases hx : stripStr p.1 = ""
    · have step : addSpeakers m false (p :: rest) = addSpeakers m false rest := by
        simp [addSpeakers, hx]
      rw [step, ih]
    · have step : addSpeakers m false (p :: rest) =
          addSpeakers (updStat m (stripStr p.1) SpkStats.init
            (fun s => ⟨s.speaks + p.2, s.rounds + 1, s.wins + 0⟩)) false rest := by
        simp [addSpeakers, hx]
      rw [step, ih]
      by_cases hj : n = stripStr p.1
      · subst hj
        simp [getStat_updStat_self]
      · rw [getStat_updStat_ne _ _ _ _ _ _ hj]

lemma nodupKeys_addSpeakers (w : Bool) (ps : List (String × ℚ))
    (m : List (String × SpkStats)) (h : NodupKeys m) : NodupKeys (addSpeakers m w ps) := by
  induction ps generalizing m with
  | nil => simpa [addSpeakers] using h
  | cons p rest ih =>
    by_cases hx : stripStr p.1 = ""
    · have step : addSpeakers m w (p :: rest) = addSpeakers m w rest := by
        simp [addSpeakers, hx]
      rw [step]
      exact ih m h
    · have step : addSpeakers m w (p :: rest) =
          addSpeakers (updStat m (stripStr p.1) SpkStats.init
            (fun s => ⟨s.speaks + p.2, s.rounds + 1,
                       s.wins + (if w then 1 else 0)⟩)) w rest := by
        simp [addSpeakers, hx]
      rw [step]
      exact ih _ (nodupKeys_updStat _ _ _ _ h)

/-! ## Row processing lemmas -/

lemma processRow_teams (cl : ColsR) (st : TState) (row : Row) :
    (processRow cl st row).teams =
      addTeam
        (addTeam st.teams (affTeamOf cl row) (classifyAff (winnerOf cl row))
          (((affPairsOf cl row).map Prod.snd).sum))
        (negTeamOf cl row) (classifyNeg (winnerOf cl row))
        (((negPairsOf cl row).map Prod.snd).sum) := rfl

lemma processRow_spks (cl : ColsR) (st : TState) (row : Row) :
    (processRow cl st row).spks =
      addSpeakers
        (addSpeakers st.spks (classifyAff (winnerOf cl row)) (affPairsOf cl row))
        (classifyNeg (winnerOf cl row)) (negPairsOf cl row) := rfl

lemma nodupKeys_processRow_teams (cl : ColsR) (st : TState) (row : Row)
    (h : NodupKeys st.teams) : NodupKeys (processRow cl st row).teams := by
  rw [processRow_teams]
  exact nodupKeys_addTeam _ _ _ _ (nodupKeys_addTeam _ _ _ _ h)

lemma nodupKeys_processRow_spks (cl : ColsR) (st : TState) (row : Row)
    (h : NodupKeys st.spks) : NodupKeys (processRow cl st row).spks := by
  rw [processRow_spks]
  exact nodupKeys_addSpeakers _ _ _ (nodupKeys_addSpeakers _ _ _ h)

/-! ## Per-tournament fold lemmas (skip behavior, key distinctness) -/

lemma nodupKeys_foldRows (cl : ColsR) (rows : List Row) (st : TState)
    (h : NodupKeys st.teams ∧ NodupKeys st.spks) :
    NodupKeys (rows.foldl (processRow cl) st).teams ∧
      NodupKeys (rows.foldl (processRow cl) st).spks := by
  induction rows generalizing st with
  | nil => exact h
  | cons row rest ih =>
    exact ih _ ⟨nodupKeys_processRow_teams _ _ _ h.1, nodupKeys_processRow_spks _ _ _ h.2⟩

lemma processDf_fst_indep (tname : String) (dfs : List RoundDf) (st : TState)
    (r1 r2 : List (String × List String)) :
    (dfs.foldl (processDf tname) (st, r1)).1 = (dfs.foldl (processDf tname) (st, r2)).1 := by
  induction dfs generalizing st r1 r2 with
  | nil => rfl
  | cons df rest ih =>
    simp only [List.foldl_cons, processDf]
    cases resolveCols df.cols with
    | none => exact ih _ _ _
    | some cl => exact ih _ _ _

lemma processDf_fold_fst (tname : String) (dfs : List RoundDf) (st : TState)
    (r : List (String × List String)) :
    (dfs.foldl (processDf tname) (st, r)).1 =
      ((dfs.filter (fun df => (resolveCols df.cols).isSome)).foldl
        (processDf tname) (st, r)).1 := by
  induction dfs generalizing st r with
  | nil => rfl
  | cons df rest ih =>
    simp only [List.foldl_cons, List.filter_cons]
    cases hc : resolveCols df.cols with
    | none =>
      simp only [processDf, hc, Option.isSome_none, Bool.false_eq_true, if_false]
      rw [ih]
      exact processDf_fst_indep _ _ _ _ _
    | some cl =>
      simp only [processDf, hc, Option.isSome_some, if_true, List.foldl_cons]
      rw [ih]

lemma processDf_fold_snd (tname : String) (dfs : List RoundDf) (st : TState)
    (r : List (String × List String)) :
    (dfs.foldl (processDf tname) (st, r)).2 =
      r ++ (dfs.filter (fun df => (resolveCols df.cols).isNone)).map
        (fun df => (tname, df.cols)) := by
  induction dfs generalizing st r with
  | nil => simp
  | cons df rest ih =>
    simp only [List.foldl_cons, List.filter_cons]
    cases hc : resolveCols df.cols with
    | none =>
      simp only [processDf, hc, Option.isNone_none, if_true, List.map_cons]
      rw [ih]
      simp
    | some cl =>
      simp only [processDf, hc, Option.isNone_some, Bool.false_eq_true, if_false]
      rw [ih]

lemma nodupKeys_processTournamentRounds (tname : String) (dfs : List RoundDf) :
    NodupKeys (processTournamentRounds tname dfs).1.teams ∧
      NodupKeys (processTournamentRounds tname dfs).1.spks := by
  have main : ∀ (acc : TState × List (String × List String)),
      NodupKeys acc.1.teams ∧ NodupKeys acc.1.spks →
      NodupKeys (dfs.foldl (processDf tname) acc).1.teams ∧
        NodupKeys (dfs.foldl (processDf tname) acc).1.spks := by
    induction dfs with
    | nil => exact fun acc h => h
    | cons df rest ih =>
      intro acc h
      simp only [List.foldl_cons]
      apply ih
      simp only [processDf]
      cases resolveCols df.cols with
      | none => exact h
      | some cl => exact nodupKeys_foldRows cl df.rows acc.1 h
  exact main (TState.init, []) ⟨List.nodup_nil, List.nodup_nil⟩

/-! ## Cross-tournament merge lemmas -/

lemma getStat_not_mem {β : Type} (m : List (String × β)) (k : String) (d : β)
    (hk : k ∉ m.map Prod.fst) : getStat m k d = d := by
  induction m with
  | nil => rfl
  | cons p rest ih =>
    simp only [List.map_cons, List.mem_cons, not_or] at hk
    have hp : ¬(p.1 = k) := fun hc => hk.1 hc.symm
    simp only [getStat, hp, if_false]
    exact ih hk.2

lemma mem_of_mem_keys {β : Type} (m : List (String × β)) (k : String) (d : β)
    (hk : k ∈ m.map Prod.fst) : (k, getStat m k d) ∈ m := by
  induction m with
  | nil => cases hk
  | cons p rest ih =>
    by_cases hp : p.1 = k
    · simp only [getStat, hp, if_true]
      have hpe : (k, p.2) = p := by
        rw [← hp]
      exact hpe ▸ List.mem_cons_self p rest
    · simp only [List.map_cons, List.mem_cons] at hk
      rcases hk with heq | hrest
      · exact absurd heq.symm hp
      · simp only [getStat, hp, if_false]
        exact List.mem_cons_of_mem _ (ih hrest)

lemma ctGet_merge (cs : CrossState) (tname : String) (st : TState) (team : String)
    (hnd : NodupKeys st.teams) :
    ctGet (mergeTournament cs tname st) team =
      ⟨(ctGet cs team).wins + (getStat st.teams team TeamStats.init).wins,
       (ctGet cs team).rounds + (getStat st.teams team TeamStats.init).rounds,
       (ctGet cs team).speaks + (getStat st.teams team TeamStats.init).speaks,
       (ctGet cs team).attended +
         (if team ∈ st.teams.map Prod.fst then 1 else 0)⟩ := by
  simp only [ctGet, mergeTournament]
  by_cases hk : team ∈ st.teams.map Prod.fst
  · have hmem : (team, getStat st.teams team TeamStats.init) ∈ st.teams :=
      mem_of_mem_keys _ _ _ hk
    have h := getStat_foldl_upd_mem
      (fun (v : TeamStats) (c : CTeam) =>
        CTeam.mk (c.wins + v.wins) (c.rounds + v.rounds) (c.speaks + v.speaks)
          (c.attended + 1))
      CTeam.init st.teams cs.teams team (getStat st.teams team TeamStats.init) hmem hnd
    simp only [] at h
    rw [h]
    simp [hk]
  · have h := getStat_foldl_upd_not_mem
      (fun (v : TeamStats) (c : CTeam) =>
        CTeam.mk (c.wins + v.wins) (c.rounds + v.rounds) (c.speaks + v.speaks)
          (c.attended + 1))
      CTeam.init st.teams cs.teams team hk
    simp only [] at h
    rw [h, getStat_not_mem _ _ _ hk]
    simp [hk, TeamStats.init]

lemma csGet_merge_mem (cs : CrossState) (tname : String) (st : TState) (name : String)
    (hnd : NodupKeys st.spks) (hk : name ∈ st.spks.map Prod.fst) :
    csGet (mergeTournament cs tname st) name =
      ⟨updStat (csGet cs name).perT tname 0
         (fun q => q + (getStat st.spks name SpkStats.init).speaks),
       (csGet cs name).wins + (getStat st.spks name SpkStats.init).wins,
       (csGet cs name).rounds + (getStat st.spks name SpkStats.init).rounds⟩ := by
  simp only [csGet, mergeTournament]
  have hmem : (name, getStat st.spks name SpkStats.init) ∈ st.spks :=
    mem_of_mem_keys _ _ _ hk
  have h := getStat_foldl_upd_mem
    (fun (v : SpkStats) (c : CSpk) =>
      CSpk.mk (updStat c.perT tname 0 (fun q => q + v.speaks)) (c.wins + v.wins)
        (c.rounds + v.rounds))
    CSpk.init st.spks cs.spks name (getStat st.spks name SpkStats.init) hmem hnd
  simp only [] at h
  rw [h]

lemma csGet_merge_not_mem (cs : CrossState) (tname : String) (st : TState)
    (name : String) (hk : name ∉ st.spks.map Prod.fst) :
    csGet (mergeTournament cs tname st) name = csGet cs name := by
  simp only [csGet, mergeTournament]
  have h := getStat_foldl_upd_not_mem
    (fun (v : SpkStats) (c : CSpk) =>
      CSpk.mk (updStat c.perT tname 0 (fun q => q + v.speaks)) (c.wins + v.wins)
        (c.rounds + v.rounds))
    CSpk.init st.spks cs.spks name hk
  simp only [] at h
  rw [h]

lemma csTotal_merge (cs : CrossState) (tname : String) (st : TState) (name : String)
    (hnd : NodupKeys st.spks) :
    csTotal (mergeTournament cs tname st) name =
      csTotal cs name + (getStat st.spks name SpkStats.init).speaks := by
  unfold csTotal
  by_cases hk : name ∈ st.spks.map Prod.fst
  · rw [csGet_merge_mem _ _ _ _ hnd hk]
    exact sum_updStat_add _ _ _
  · rw [csGet_merge_not_mem _ _ _ _ hk, getStat_not_mem _ _ _ hk]
    simp [SpkStats.init]

lemma csWins_merge (cs : CrossState) (tname : String) (st : TState) (name : String)
    (hnd : NodupKeys st.spks) :
    (csGet (mergeTournament cs tname st) name).wins =
      (csGet cs name).wins + (getStat st.spks name SpkStats.init).wins := by
  by_cases hk : name ∈ st.spks.map Prod.fst
  · rw [csGet_merge_mem _ _ _ _ hnd hk]
  · rw [csGet_merge_not_mem _ _ _ _ hk, getStat_not_mem _ _ _ hk]
    simp [SpkStats.init]

lemma csRounds_merge (cs : CrossState) (tname : String) (st : TState) (name : String)
    (hnd : NodupKeys st.spks) :
    (csGet (mergeTournament cs tname st) name).rounds =
      (csGet cs name).rounds + (getStat st.spks name SpkStats.init).rounds := by
  by_cases hk : name ∈ st.spks.map Prod.fst
  · rw [csGet_merge_mem _ _ _ _ hnd hk]
  · rw [csGet_merge_not_mem _ _ _ _ hk, getStat_not_mem _ _ _ hk]
    simp [SpkStats.init]

/-! ## Sums over the whole collection -/

lemma processAll_fold_sums (ts : List (String × List RoundDf)) (team name : String) :
    ∀ (cs : CrossState) (r : List (String × List String)),
      ((ctGet (ts.foldl processStep (cs, r)).1 team).wins =
          (ctGet cs team).wins + (ts.map (fun t => (perTeam t.1 t.2 team).wins)).sum) ∧
      ((ctGet (ts.foldl processStep (cs, r)).1 team).rounds =
          (ctGet cs team).rounds + (ts.map (fun t => (perTeam t.1 t.2 team).rounds)).sum) ∧
      ((ctGet (ts.foldl processStep (cs, r)).1 team).speaks =
          (ctGet cs team).speaks + (ts.map (fun t => (perTeam t.1 t.2 team).speaks)).sum) ∧
      ((csGet (ts.foldl processStep (cs, r)).1 name).wins =
          (csGet cs name).wins + (ts.map (fun t => (perSpk t.1 t.2 name).wins)).sum) ∧
      ((csGet (ts.foldl processStep (cs, r)).1 name).rounds =
          (csGet cs name).rounds + (ts.map (fun t => (perSpk t.1 t.2 name).rounds)).sum) ∧
      (csTotal (ts.foldl processStep (cs, r)).1 name =
          csTotal cs name + (ts.map (fun t => (perSpk t.1 t.2 name).speaks)).sum) := by
  induction ts with
  | nil => simp
  | cons t rest ih =>
    intro cs r
    have hnd := nodupKeys_processTournamentRounds t.1 t.2
    simp only [List.foldl_cons, List.map_cons, List.sum_cons]
    have step : processStep (cs, r) t =
        (mergeTournament cs t.1 (processTournamentRounds t.1 t.2).1,
         r ++ (processTournamentRounds t.1 t.2).2) := rfl
    rw [step]
    obtain ⟨h1, h2, h3, h4, h5, h6⟩ := ih (mergeTournament cs t.1 (processTournamentRounds t.1 t.2).1)
      (r ++ (processTournamentRounds t.1 t.2).2)
    refine ⟨?_, ?_, ?_, ?_, ?_, ?_⟩
    · rw [h1, ctGet_merge _ _ _ _ hnd.1]
      show (ctGet cs team).wins + (perTeam t.1 t.2 team).wins + _ = _
      ring
    · rw [h2, ctGet_merge _ _ _ _ hnd.1]
      show (ctGet cs team).rounds + (perTeam t.1 t.2 team).rounds + _ = _
      ring
    · rw [h3, ctGet_merge _ _ _ _ hnd.1]
      show (ctGet cs team).speaks + (perTeam t.1 t.2 team).speaks + _ = _
      ring
    · rw [h4, csWins_merge _ _ _ _ hnd.2]
      show (csGet cs name).wins + (perSpk t.1 t.2 name).wins + _ = _
      ring
    · rw [h5, csRounds_merge _ _ _ _ hnd.2]
      show (csGet cs name).rounds + (perSpk t.1 t.2 name).rounds + _ = _
      ring
    · rw [h6, csTotal_merge _ _ _ _ hnd.2]
      show csTotal cs name + (perSpk t.1 t.2 name).speaks + _ = _
      ring

lemma ctGet_processAll (ts : List (String × List RoundDf)) (team : String) :
    (ctGet (processAll ts).1 team).wins =
        (ts.map (fun t => (perTeam t.1 t.2 team).wins)).sum ∧
      (ctGet (processAll ts).1 team).rounds =
        (ts.map (fun t => (perTeam t.1 t.2 team).rounds)).sum ∧
      (ctGet (processAll ts).1 team).speaks =
        (ts.map (fun t => (perTeam t.1 t.2 team).speaks)).sum := by
  obtain ⟨h1, h2, h3, _, _, _⟩ := processAll_fold_sums ts team team CrossState.init []
  refine ⟨?_, ?_, ?_⟩
  · simpa [processAll, ctGet, CrossState.init, getStat, CTeam.init] using h1
  · simpa [processAll, ctGet, CrossState.init, getStat, CTeam.init] using h2
  · simpa [processAll, ctGet, CrossState.init, getStat, CTeam.init] using h3

lemma csGet_processAll (ts : List (String × List RoundDf)) (name : String) :
    (csGet (processAll ts).1 name).wins =
        (ts.map (fun t => (perSpk t.1 t.2 name).wins)).sum ∧
      (csGet (processAll ts).1 name).rounds =
        (ts.map (fun t => (perSpk t.1 t.2 name).rounds)).sum ∧
      csTotal (processAll ts).1 name =
        (ts.map (fun t => (perSpk t.1 t.2 name).speaks)).sum := by
  obtain ⟨_, _, _, h4, h5, h6⟩ := processAll_fold_sums ts name name CrossState.init []
  refine ⟨?_, ?_, ?_⟩
  · simpa [processAll, csGet, CrossState.init, getStat, CSpk.init] using h4
  · simpa [processAll, csGet, CrossState.init, getStat, CSpk.init] using h5
  · simpa [processAll, csGet, csTotal, CrossState.init, getStat, CSpk.init] using h6

/-! ## Extractor lemmas -/

lemma growName_chars (l : List Char) (acc nm : List Char) (q : ℚ) (r : List Char)
    (hacc : ∀ c ∈ acc, isNameChar c = true) (h : growName acc l = some (nm, q, r)) :
    ∀ c ∈ nm, isNameChar c = true := by
  induction l generalizing acc with
  | nil => simp [growName] at h
  | cons a rest ih =>
    rw [growName] at h
    cases hm : matchTail (a :: rest) with
    | some pr =>
      rw [hm] at h
      cases h
      exact hacc
    | none =>
      rw [hm] at h
      by_cases ha : isNameChar a = true
      · rw [if_pos ha] at h
        refine ih (acc ++ [a]) ?_ h
        intro c hc
        rcases List.mem_append.mp hc with hc | hc
        · exact hacc c hc
        · rcases List.mem_singleton.mp hc with rfl
          exact ha
      · rw [if_neg ha] at h
        cases h

lemma matchPairAt_chars (l nm : List Char) (q : ℚ) (r : List Char)
    (h : matchPairAt l = some (nm, q, r)) : ∀ c ∈ nm, isNameChar c = true := by
  match l with
  | [] => simp [matchPairAt] at h
  | [c1] => simp [matchPairAt] at h
  | c1 :: c2 :: rest =>
    rw [matchPairAt] at h
    by_cases hc : (isNameChar c1 && isNameChar c2) = true
    · rw [if_pos hc] at h
      have hand := hc
      rw [Bool.and_eq_true] at hand
      refine growName_chars rest [c1, c2] nm q r ?_ h
      intro c hcm
      have hcc : c = c1 ∨ c = c2 := by simpa using hcm
      rcases hcc with rfl | rfl
      · exact hand.1
      · exact hand.2
    · rw [if_neg hc] at h
      cases h

lemma findPairsF_chars (fuel : ℕ) (l nm : List Char) (q : ℚ)
    (h : (nm, q) ∈ findPairsF fuel l) : ∀ c ∈ nm, isNameChar c = true := by
  induction fuel generalizing l with
  | zero => simp [findPairsF] at h
  | succ fuel ih =>
    match l with
    | [] => simp [findPairsF] at h
    | a :: rest =>
      rw [findPairsF] at h
      cases hm : matchPairAt (a :: rest) with
      | some pr =>
        rw [hm] at h
        rcases List.mem_cons.mp h with heq | htail
        · have : nm = pr.1 := congrArg Prod.fst heq
          subst this
          exact matchPairAt_chars _ _ pr.2.1 pr.2.2 (by simpa using hm)
        · exact ih _ htail
      | none =>
        rw [hm] at h
        exact ih _ h

lemma mem_stripL (l : List Char) (c : Char) (h : c ∈ stripL l) : c ∈ l := by
  unfold stripL at h
  rw [List.mem_reverse] at h
  have h2 := (List.dropWhile_sublist (fun c => isPyWs c)).subset h
  rw [List.mem_reverse] at h2
  exact (List.dropWhile_sublist (fun c => isPyWs c)).subset h2

lemma mem_collapseGo (l : List Char) :
    ∀ (b : Bool) (c : Char), c ∈ collapseGo b l → c = ' ' ∨ c ∈ l := by
  induction l with
  | nil =>
    intro b c hc
    simp [collapseGo] at hc
  | cons a rest ih =>
    intro b c hc
    rw [collapseGo] at hc
    by_cases ha : isPyWs a = true
    · rw [if_pos ha] at hc
      cases b with
      | true =>
        rw [if_pos rfl] at hc
        rcases ih true c hc with h | h
        · exact Or.inl h
        · exact Or.inr (List.mem_cons_of_mem _ h)
      | false =>
        rw [if_neg (by simp)] at hc
        rcases List.mem_cons.mp hc with rfl | hc
        · exact Or.inl rfl
        · rcases ih true c hc with h | h
          · exact Or.inl h
          · exact Or.inr (List.mem_cons_of_mem _ h)
    · rw [if_neg ha] at hc
      rcases List.mem_cons.mp hc with rfl | hc
      · exact Or.inr (List.mem_cons_self _ _)
      · rcases ih false c hc with h | h
        · exact Or.inl h
        · exact Or.inr (List.mem_cons_of_mem _ h)

lemma mem_collapseWs (l : List Char) (c : Char) (h : c ∈ collapseWs l) :
    c = ' ' ∨ c ∈ l :=
  mem_collapseGo l false c h

lemma collapseWs_ne_nil (l : List Char) (h : l ≠ []) : collapseWs l ≠ [] := by
  match l with
  | [] => exact absurd rfl h
  | a :: rest =>
    rw [collapseWs, collapseGo]
    by_cases ha : isPyWs a = true
    · simp [ha]
    · simp [ha]

lemma collapseGo_true_head (l : List Char) :
    ∀ (c : Char), (collapseGo true l).head? = some c → isPyWs c = false := by
  induction l with
  | nil =>
    intro c hc
    simp [collapseGo] at hc
  | cons a rest ih =>
    intro c hc
    rw [collapseGo] at hc
    by_cases ha : isPyWs a = true
    · rw [if_pos ha, if_pos rfl] at hc
      exact ih c hc
    · rw [if_neg ha] at hc
      cases hc
      exact Bool.eq_false_iff.mpr ha

lemma noRepWs_collapseGo (l : List Char) : ∀ (b : Bool), noRepWs (collapseGo b l) := by
  induction l with
  | nil =>
    intro b
    simp [collapseGo, noRepWs]
  | cons a rest ih =>
    intro b
    rw [collapseGo]
    by_cases ha : isPyWs a = true
    · rw [if_pos ha]
      cases b with
      | true =>
        rw [if_pos rfl]
        exact ih true
      | false =>
        rw [if_neg (by simp)]
        rw [noRepWs, List.chain'_cons']
        constructor
        · intro c hc
          have := collapseGo_true_head rest c hc
          simp [this]
        · exact ih true
    · rw [if_neg ha]
      rw [noRepWs, List.chain'_cons']
      constructor
      · intro c hc
        simp [ha]
      · exact ih false

lemma noRepWs_collapseWs (l : List Char) : noRepWs (collapseWs l) :=
  noRepWs_collapseGo l false

lemma pyWs_cases (c : Char) (h : isPyWs c = true) :
    c = ' ' ∨ c = Char.ofNat 9 ∨ c = Char.ofNat 10 ∨ c = Char.ofNat 13 ∨
      c = Char.ofNat 11 ∨ c = Char.ofNat 12 := by
  simp only [isPyWs, Bool.or_eq_true, decide_eq_true_eq] at h
  tauto

lemma nameChar_cases (c : Char) (h : isNameChar c = true) :
    isAsciiLetter c = true ∨ c = '.' ∨ c = Char.ofNat 39 ∨ c = '-' ∨
      isPyWs c = true := by
  simp only [isNameChar, Bool.or_eq_true, decide_eq_true_eq] at h
  tauto

lemma asciiLetter_cases (c : Char) (h : isAsciiLetter c = true) :
    ('A' ≤ c ∧ c ≤ 'Z') ∨ ('a' ≤ c ∧ c ≤ 'z') := by
  simp only [isAsciiLetter, Bool.or_eq_true, Bool.and_eq_true, decide_eq_true_eq] at h
  tauto

lemma nameChar_not_digit (c : Char) (h : isNameChar c = true) : isPyDigit c = false := by
  by_contra hd
  rw [Bool.not_eq_false, isPyDigit, Bool.and_eq_true, decide_eq_true_eq,
    decide_eq_true_eq] at hd
  rcases nameChar_cases c h with hL | hp | hp | hp | hw
  · rcases asciiLetter_cases c hL with ⟨h1, _⟩ | ⟨h1, _⟩
    · exact absurd (le_trans h1 hd.2) (by decide)
    · exact absurd (le_trans h1 hd.2) (by decide)
  · subst hp
    exact absurd hd.1 (by decide)
  · subst hp
    exact absurd hd.1 (by decide)
  · subst hp
    exact absurd hd.1 (by decide)
  · rcases pyWs_cases c hw with h1 | h1 | h1 | h1 | h1 | h1 <;> subst h1 <;>
      exact absurd hd.1 (by decide)

/-! ## Small helper lemmas for the claims -/

lemma not_both_prefixOf (c1 c2 : Char) (t1 t2 l : List Char) (h : c1 ≠ c2) :
    ¬((c1 :: t1).isPrefixOf l = true ∧ (c2 :: t2).isPrefixOf l = true) := by
  rintro ⟨h1, h2⟩
  cases l with
  | nil => simp [List.isPrefixOf] at h1
  | cons a l =>
    simp only [List.isPrefixOf, Bool.and_eq_true, beq_iff_eq] at h1 h2
    exact h (h1.1.trans h2.1.symm)

lemma winPct_zero (w : ℕ) : winPct w 0 = 0 := by
  simp [winPct]

lemma pyRound_zero (d : ℕ) : pyRound 0 d = 0 := by
  unfold pyRound roundHalfEven
  norm_num

/-! # Claim theorems -/

/-- Claim C4: for every processed round, the affirmative team's win
count increments exactly when the trimmed winner cell starts
case-insensitively with "aff" (the negative side likewise with "neg"),
the two flags are never both set, and a round whose winner cell
classifies as neither (for example a blank cell) still increments
`roundsPlayed` and the score sums for both (nonempty, distinct) teams
while no team's and no speaker's win count changes. -/
theorem C4_winner_classification :
    (∀ v : String, ¬(classifyAff v = true ∧ classifyNeg v = true)) ∧
    (∀ (cl : ColsR) (st : TState) (row : Row),
      affTeamOf cl row ≠ "" → negTeamOf cl row ≠ "" →
      affTeamOf cl row ≠ negTeamOf cl row →
      ((getStat (processRow cl st row).teams (affTeamOf cl row) TeamStats.init).wins =
        (getStat st.teams (affTeamOf cl row) TeamStats.init).wins +
          (if classifyAff (winnerOf cl row) then 1 else 0)) ∧
      ((getStat (processRow cl st row).teams (negTeamOf cl row) TeamStats.init).wins =
        (getStat st.teams (negTeamOf cl row) TeamStats.init).wins +
          (if classifyNeg (winnerOf cl row) then 1 else 0)) ∧
      ((getStat (processRow cl st row).teams (affTeamOf cl row) TeamStats.init).rounds =
        (getStat st.teams (affTeamOf cl row) TeamStats.init).rounds + 1) ∧
      ((getStat (processRow cl st row).teams (negTeamOf cl row) TeamStats.init).rounds =
        (getStat st.teams (negTeamOf cl row) TeamStats.init).rounds + 1) ∧
      ((getStat (processRow cl st row).teams (affTeamOf cl row) TeamStats.init).speaks =
        (getStat st.teams (affTeamOf cl row) TeamStats.init).speaks +
          ((affPairsOf cl row).map Prod.snd).sum) ∧
      ((getStat (processRow cl st row).teams (negTeamOf cl row) TeamStats.init).speaks =
        (getStat st.teams (negTeamOf cl row) TeamStats.init).speaks +
          ((negPairsOf cl row).map Prod.snd).sum) ∧
      (classifyAff (winnerOf cl row) = false → classifyNeg (winnerOf cl row) = false →
        (∀ k, (getStat (processRow cl st row).teams k TeamStats.init).wins =
          (getStat st.teams k TeamStats.init).wins) ∧
        (∀ n, (getStat (processRow cl st row).spks n SpkStats.init).wins =
          (getStat st.spks n SpkStats.init).wins))) := by
  constructor
  · intro v hv
    have h1 := hv.1
    have h2 := hv.2
    rw [classifyAff, startsWithL] at h1
    rw [classifyNeg, startsWithL] at h2
    have ha : affKw.data = ['a', 'f', 'f'] := by decide
    have hn : negKw.data = ['n', 'e', 'g'] := by decide
    rw [ha] at h1
    rw [hn] at h2
    exact not_both_prefixOf _ _ _ _ _ (by decide) ⟨h1, h2⟩
  · intro cl st row ha hb hab
    rw [processRow_teams, processRow_spks]
    have hba : negTeamOf cl row ≠ affTeamOf cl row := fun hc => hab hc.symm
    refine ⟨?_, ?_, ?_, ?_, ?_, ?_, ?_⟩
    · rw [getStat_addTeam_ne _ _ _ _ _ hab, getStat_addTeam_self _ _ _ _ ha]
    · rw [getStat_addTeam_self _ _ _ _ hb, getStat_addTeam_ne _ _ _ _ _ hba]
    · rw [getStat_addTeam_ne _ _ _ _ _ hab, getStat_addTeam_self _ _ _ _ ha]
    · rw [getStat_addTeam_self _ _ _ _ hb, getStat_addTeam_ne _ _ _ _ _ hba]
    · rw [getStat_addTeam_ne _ _ _ _ _ hab, getStat_addTeam_self _ _ _ _ ha]
    · rw [getStat_addTeam_self _ _ _ _ hb, getStat_addTeam_ne _ _ _ _ _ hba]
    · intro haf hnf
      rw [haf, hnf]
      constructor
      · intro k
        rw [wins_addTeam_false, wins_addTeam_false]
      · intro n
        rw [wins_addSpeakers_false, wins_addSpeakers_false]

/-- Witness for C4 at a concrete blank-winner round. -/
theorem C4_witness :
    (¬(classifyAff ("Aff") = true ∧ classifyNeg ("Aff") = true)) ∧
    ((getStat (processRow ⟨("Aff"), ("Neg"), some ("Win"), none, none⟩ TState.init
        [(("Aff"), ("A")), (("Neg"), ("B")), (("Win"), (""))]).teams ("A")
        TeamStats.init).rounds = 0 + 1) ∧
    (∀ k, (getStat (processRow ⟨("Aff"), ("Neg"), some ("Win"), none, none⟩ TState.init
        [(("Aff"), ("A")), (("Neg"), ("B")), (("Win"), (""))]).teams k
        TeamStats.init).wins =
      (getStat TState.init.teams k TeamStats.init).wins) := by
  have h := C4_winner_classification.2 ⟨("Aff"), ("Neg"), some ("Win"), none, none⟩
    TState.init [(("Aff"), ("A")), (("Neg"), ("B")), (("Win"), (""))]
    (by with_unfolding_all decide) (by with_unfolding_all decide)
    (by with_unfolding_all decide)
  refine ⟨C4_winner_classification.1 ("Aff"), ?_, ?_⟩
  · have h3 := h.2.2.1
    have hA : affTeamOf ⟨("Aff"), ("Neg"), some ("Win"), none, none⟩
        [(("Aff"), ("A")), (("Neg"), ("B")), (("Win"), (""))] = ("A") := by
      with_unfolding_all decide
    rw [hA] at h3
    rw [h3]
    rfl
  · exact (h.2.2.2.2.2.2 (by with_unfolding_all decide) (by with_unfolding_all decide)).1

/-- Claim C5: when the extractor finds no (name, score) pairs in a cell,
the side falls back to all bare decimal numbers: if any exist, exactly
two placeholder speakers are synthesized, each credited half the mean of
the numbers; if none exist, the side's pair list is empty and its round
score is 0. -/
theorem C5_extractor_fallback (side blob : String)
    (h : extract_name_score_pairs blob = []) :
    (extract_numbers blob ≠ [] →
      sidePairs side blob =
        [(side ++ " Speaker 1",
          (extract_numbers blob).sum / ((extract_numbers blob).length : ℚ) / 2),
         (side ++ " Speaker 2",
          (extract_numbers blob).sum / ((extract_numbers blob).length : ℚ) / 2)]) ∧
    (extract_numbers blob = [] →
      sidePairs side blob = [] ∧ ((sidePairs side blob).map Prod.snd).sum = 0) := by
  constructor
  · intro hn
    rw [sidePairs, h]
    simp only [List.isEmpty_nil, if_true]
    rw [if_neg (by simpa [List.isEmpty_iff] using hn)]
  · intro hn
    rw [sidePairs, h]
    simp only [List.isEmpty_nil, if_true]
    rw [if_pos (by simpa [List.isEmpty_iff] using hn)]
    simp

/-- Witness for C5: the scenario cell "27.5 26.0" yields two placeholder
speakers with 13.375 points each; a numberless cell yields nothing. -/
theorem C5_witness :
    extract_name_score_pairs ("27.5 26.0") = [] ∧
    sidePairs ("Aff") ("27.5 26.0") =
      [(("Aff Speaker 1"), (107 : ℚ)/8), (("Aff Speaker 2"), (107 : ℚ)/8)] ∧
    extract_numbers ("xyz") = [] ∧
    sidePairs ("Neg") ("xyz") = [] := by
  refine ⟨by with_unfolding_all decide, ?_, by with_unfolding_all decide, ?_⟩
  · have h := (C5_extractor_fallback ("Aff") ("27.5 26.0")
      (by with_unfolding_all decide)).1 (by with_unfolding_all decide)
    rw [h]
    with_unfolding_all decide
  · exact ((C5_extractor_fallback ("Neg") ("xyz")
      (by with_unfolding_all decide)).2 (by with_unfolding_all decide)).1

/-- Claim C7: a round file whose team-identifier columns cannot be
resolved is skipped — the accumulated state is exactly the state of the
resolvable files, and one warning naming the tournament (with the
offending columns) is emitted per skipped file — while every other file
and every other tournament is still processed, each tournament
contributing its own warnings to the collected report list. -/
theorem C7_unresolved_round_skipped (tname : String) (dfs : List RoundDf) :
    ((processTournamentRounds tname dfs).1 =
      (processTournamentRounds tname
        (dfs.filter (fun df => (resolveCols df.cols).isSome))).1) ∧
    ((processTournamentRounds tname dfs).2 =
      (dfs.filter (fun df => (resolveCols df.cols).isNone)).map
        (fun df => (tname, df.cols))) ∧
    (∀ ts : List (String × List RoundDf),
      (processAll ts).2 =
        (ts.map (fun t => (processTournamentRounds t.1 t.2).2)).flatten) := by
  refine ⟨?_, ?_, ?_⟩
  · rw [processTournamentRounds, processTournamentRounds]
    exact processDf_fold_fst tname dfs TState.init []
  · rw [processTournamentRounds]
    rw [processDf_fold_snd tname dfs TState.init []]
    simp
  · intro ts
    have aux : ∀ (l : List (String × List RoundDf)) (acc : CrossState ×
        List (String × List String)),
        (l.foldl processStep acc).2 =
          acc.2 ++ (l.map (fun t => (processTournamentRounds t.1 t.2).2)).flatten := by
      intro l
      induction l with
      | nil => simp
      | cons t rest ih =>
        intro acc
        simp only [List.foldl_cons, List.map_cons, List.flatten]
        rw [ih]
        simp [processStep]
    rw [processAll, aux ts (CrossState.init, [])]
    simp

/-- Claim C8: the guarded rate definition returns 0 whenever an entity
has played no rounds, and every win-rate field of every leaderboard row
is that guarded value (rounded for display), so computing the
leaderboards never divides by zero. -/
theorem C8_no_division_by_zero :
    (∀ w : ℕ, winPct w 0 = 0) ∧
    (∀ d : ℕ, pyRound 0 d = 0) ∧
    (∀ (m : List (String × TeamStats)) (r : TeamRow), r ∈ teamRowsOf m →
      r.winPctF = pyRound (winPct r.wins r.rounds) 3 ∧ (r.rounds = 0 → r.winPctF = 0)) ∧
    (∀ (cs : CrossState) (r : CTeamRow), r ∈ crossTeamRowsOf cs →
      r.winPctF = pyRound (winPct r.wins r.rounds) 4 ∧ (r.rounds = 0 → r.winPctF = 0)) ∧
    (∀ (cs : CrossState) (r : CSpkRow), r ∈ crossSpkRowsOf cs →
      ∃ p ∈ cs.spks, r.winPctF = pyRound (winPct p.2.wins p.2.rounds) 4 ∧
        (p.2.rounds = 0 → r.winPctF = 0) ∧ 0 < r.attended) := by
  refine ⟨winPct_zero, pyRound_zero, ?_, ?_, ?_⟩
  · intro m r hr
    rcases List.mem_map.mp hr with ⟨p, hp, rfl⟩
    refine ⟨rfl, ?_⟩
    intro h0
    simp only at h0
    simp only [h0, winPct_zero, pyRound_zero]
  · intro cs r hr
    rcases List.mem_map.mp hr with ⟨p, hp, rfl⟩
    refine ⟨rfl, ?_⟩
    intro h0
    simp only at h0
    simp only [h0, winPct_zero, pyRound_zero]
  · intro cs r hr
    rcases List.mem_filterMap.mp hr with ⟨p, hp, hmap⟩
    by_cases hz : p.2.perT.length = 0
    · rw [if_pos hz] at hmap
      cases hmap
    · rw [if_neg hz] at hmap
      cases hmap
      refine ⟨p, hp, rfl, ?_, Nat.pos_of_ne_zero hz⟩
      intro h0
      simp only [h0, winPct_zero, pyRound_zero]

/-- Witness for C8 at rows whose rounds count is zero. -/
theorem C8_witness :
    winPct 5 0 = 0 ∧
    (⟨("TX"), 2, 0, 0, 5⟩ : TeamRow).winPctF = 0 ∧
    (⟨("N"), 3, 3, 1, 0⟩ : CSpkRow).winPctF = 0 := by
  refine ⟨C8_no_division_by_zero.1 5, ?_, ?_⟩
  · exact (C8_no_division_by_zero.2.2.1 [(("TX"), ⟨2, 0, 5⟩)] ⟨("TX"), 2, 0, 0, 5⟩
      (by with_unfolding_all decide)).2 rfl
  · obtain ⟨p, hp, h1, h2, h3⟩ := C8_no_division_by_zero.2.2.2.2
      ⟨[], [(("N"), ⟨[(("T1"), 3)], 1, 0⟩)]⟩ ⟨("N"), 3, 3, 1, 0⟩
      (by with_unfolding_all decide)
    have hpe : p = (("N"), (⟨[(("T1"), 3)], 1, 0⟩ : CSpk)) := by
      simpa using hp
    subst hpe
    exact h2 rfl

lemma processRow_spk_stats (cl : ColsR) (st : TState) (row : Row) (n : String)
    (hn : n ≠ "") :
    getStat (processRow cl st row).spks n SpkStats.init =
      ⟨(getStat st.spks n SpkStats.init).speaks +
         (((affPairsOf cl row).filter (fun p => stripStr p.1 = n)).map Prod.snd).sum +
         (((negPairsOf cl row).filter (fun p => stripStr p.1 = n)).map Prod.snd).sum,
       (getStat st.spks n SpkStats.init).rounds +
         ((affPairsOf cl row).filter (fun p => stripStr p.1 = n)).length +
         ((negPairsOf cl row).filter (fun p => stripStr p.1 = n)).length,
       (getStat st.spks n SpkStats.init).wins +
         (if classifyAff (winnerOf cl row) then
           ((affPairsOf cl row).filter (fun p => stripStr p.1 = n)).length else 0) +
         (if classifyNeg (winnerOf cl row) then
           ((negPairsOf cl row).filter (fun p => stripStr p.1 = n)).length else 0)⟩ := by
  rw [processRow_spks, getStat_addSpeakers _ _ _ _ hn, getStat_addSpeakers _ _ _ _ hn]

/-- Claim C6: the cross-tournament win rate of every team and every
speaker is the pooled ratio — total wins over the processed tournaments
divided by total rounds — computed from the unrounded per-tournament
counts, not the mean of per-tournament win rates; on the concrete
two-tournament input `c6Input` the pooled rate is 1/4 while the mean of
the per-tournament rates is 1/2. -/
theorem C6_pooled_not_averaged (ts : List (String × List RoundDf)) (team name : String) :
    ((ctGet (processAll ts).1 team).wins =
        (ts.map (fun t => (perTeam t.1 t.2 team).wins)).sum ∧
      (ctGet (processAll ts).1 team).rounds =
        (ts.map (fun t => (perTeam t.1 t.2 team).rounds)).sum ∧
      (0 < (ts.map (fun t => (perTeam t.1 t.2 team).rounds)).sum →
        winPct (ctGet (processAll ts).1 team).wins (ctGet (processAll ts).1 team).rounds =
          (((ts.map (fun t => (perTeam t.1 t.2 team).wins)).sum : ℕ) : ℚ) /
            (((ts.map (fun t => (perTeam t.1 t.2 team).rounds)).sum : ℕ) : ℚ))) ∧
    ((csGet (processAll ts).1 name).wins =
        (ts.map (fun t => (perSpk t.1 t.2 name).wins)).sum ∧
      (csGet (processAll ts).1 name).rounds =
        (ts.map (fun t => (perSpk t.1 t.2 name).rounds)).sum ∧
      (0 < (ts.map (fun t => (perSpk t.1 t.2 name).rounds)).sum →
        winPct (csGet (processAll ts).1 name).wins (csGet (processAll ts).1 name).rounds =
          (((ts.map (fun t => (perSpk t.1 t.2 name).wins)).sum : ℕ) : ℚ) /
            (((ts.map (fun t => (perSpk t.1 t.2 name).rounds)).sum : ℕ) : ℚ))) ∧
    (winPct (ctGet (processAll c6Input).1 ("TX")).wins
        (ctGet (processAll c6Input).1 ("TX")).rounds = 1/4 ∧
      (winPct (perTeam ("T1") [c6Df1] ("TX")).wins (perTeam ("T1") [c6Df1] ("TX")).rounds +
        winPct (perTeam ("T2") [c6Df0] ("TX")).wins
          (perTeam ("T2") [c6Df0] ("TX")).rounds) / 2 = 1/2 ∧
      ((1 : ℚ)/4 ≠ 1/2)) := by
  obtain ⟨hw, hr, _⟩ := ctGet_processAll ts team
  obtain ⟨hsw, hsr, _⟩ := csGet_processAll ts name
  refine ⟨⟨hw, hr, ?_⟩, ⟨hsw, hsr, ?_⟩, ?_⟩
  · intro hpos
    rw [hw, hr]
    simp only [winPct]
    rw [if_pos hpos]
  · intro hpos
    rw [hsw, hsr]
    simp only [winPct]
    rw [if_pos hpos]
  · refine ⟨?_, ?_, by norm_num⟩
    · with_unfolding_all decide
    · with_unfolding_all decide

/-- Witness for C6: the pooled cross-tournament rate of TX over
`c6Input`. -/
theorem C6_witness :
    winPct (ctGet (processAll c6Input).1 ("TX")).wins
        (ctGet (processAll c6Input).1 ("TX")).rounds =
      (((c6Input.map (fun t => (perTeam t.1 t.2 ("TX")).wins)).sum : ℕ) : ℚ) /
        (((c6Input.map (fun t => (perTeam t.1 t.2 ("TX")).rounds)).sum : ℕ) : ℚ) :=
  (C6_pooled_not_averaged c6Input ("TX") ("TX")).1.2.2 (by with_unfolding_all decide)

/-- Claim C1 counterexample: on four one-round tournaments in which
Alice scores 30 each time, the engine's cross-tournament speaker record
is (avg 30, total 120, attended 4, win rate 1) — every tournament is
included, each with weight 1 — whereas the claimed last-3 selection with
recency weights max(0, 1−0.2·i) would give the weighted total
0.6·30 + 0.8·30 + 1.0·30 = 72.  No field of the record equals 72. -/
theorem C1_counterexample :
    crossSpkRowsOf (processAll c1Input).1 = [⟨("Alice"), 30, 120, 4, 1⟩] ∧
    csTotal (processAll c1Input).1 ("Alice") = 120 ∧
    specSelectedWeightedTotal 3 c1Input ("Alice") = 72 ∧
    ((120 : ℚ) ≠ 72) ∧ ((30 : ℚ) ≠ 72) ∧ ((1 : ℚ) ≠ 72) := by
  refine ⟨?_, ?_, ?_, by norm_num, by norm_num, by norm_num⟩
  · with_unfolding_all decide
  · with_unfolding_all decide
  · with_unfolding_all decide

/-- Claim C1 amended: the cross-tournament aggregation selects every
tournament of the collection (no last-N restriction) and each
tournament's per-speaker totals enter the accumulators unweighted —
recency and level multipliers are identically 1. -/
theorem C1_amended_unweighted (ts : List (String × List RoundDf)) (name : String) :
    csTotal (processAll ts).1 name =
        (ts.map (fun t => (perSpk t.1 t.2 name).speaks)).sum ∧
      (csGet (processAll ts).1 name).wins =
        (ts.map (fun t => (perSpk t.1 t.2 name).wins)).sum ∧
      (csGet (processAll ts).1 name).rounds =
        (ts.map (fun t => (perSpk t.1 t.2 name).rounds)).sum := by
  obtain ⟨h1, h2, h3⟩ := csGet_processAll ts name
  exact ⟨h3, h1, h2⟩

/-- Claim C3 counterexample: a team winning 1 of 3 rounds has the exact
win rate 1/3, but the engine stores `round(1/3, 3) = 0.333` in the
leaderboard row — the emitted numeric field is not the full-precision
value. -/
theorem C3_counterexample :
    teamRowsOf (processTournamentRounds ("T1") [c3Df]).1.teams =
      [⟨("TX"), 1, 3, 333/1000, 0⟩, ⟨("TY"), 2, 3, 667/1000, 0⟩] ∧
    winPct (perTeam ("T1") [c3Df] ("TX")).wins (perTeam ("T1") [c3Df] ("TX")).rounds =
      1/3 ∧
    ((333 : ℚ)/1000 ≠ 1/3) := by
  refine ⟨?_, ?_, by norm_num⟩
  · with_unfolding_all decide
  · with_unfolding_all decide

/-- Claim C3 amended: every leaderboard row is built from its entity's
accumulated stats with `round` applied for display — Win% to 3 decimals
per tournament and 4 across tournaments, speaks to 2 decimals — while
the cross-tournament accumulators themselves are fed the unrounded
per-tournament values. -/
theorem C3_amended_rounded_fields :
    (∀ (m : List (String × TeamStats)) (r : TeamRow), r ∈ teamRowsOf m →
      ∃ p ∈ m, r = ⟨p.1, p.2.wins, p.2.rounds, pyRound (winPct p.2.wins p.2.rounds) 3,
        pyRound p.2.speaks 2⟩) ∧
    (∀ (cs : CrossState) (r : CTeamRow), r ∈ crossTeamRowsOf cs →
      ∃ p ∈ cs.teams, r = ⟨p.1, p.2.wins, p.2.rounds, pyRound (winPct p.2.wins p.2.rounds) 4,
        pyRound p.2.speaks 2, p.2.attended⟩) ∧
    (∀ (ts : List (String × List RoundDf)) (name : String),
      csTotal (processAll ts).1 name =
        (ts.map (fun t => (perSpk t.1 t.2 name).speaks)).sum) := by
  refine ⟨?_, ?_, ?_⟩
  · intro m r hr
    rcases List.mem_map.mp hr with ⟨p, hp, rfl⟩
    exact ⟨p, hp, rfl⟩
  · intro cs r hr
    rcases List.mem_map.mp hr with ⟨p, hp, rfl⟩
    exact ⟨p, hp, rfl⟩
  · intro ts name
    exact (csGet_processAll ts name).2.2

/-- Witness for the amended C3 at a concrete team with win rate 1/3 and
speaks 31/3: the stored fields are the rounded 0.333 and 10.33. -/
theorem C3_amended_witness :
    ∃ p ∈ [(("TX"), (⟨1, 3, 31/3⟩ : TeamStats))],
      (⟨("TX"), 1, 3, (333 : ℚ)/1000, (1033 : ℚ)/100⟩ : TeamRow) =
        ⟨p.1, p.2.wins, p.2.rounds, pyRound (winPct p.2.wins p.2.rounds) 3,
         pyRound p.2.speaks 2⟩ :=
  C3_amended_rounded_fields.1 [(("TX"), ⟨1, 3, 31/3⟩)]
    ⟨("TX"), 1, 3, (333 : ℚ)/1000, (1033 : ℚ)/100⟩ (by with_unfolding_all decide)

/-- Claim C9 counterexample: on the cell "a  5" the extractor matches
the two-character run "a " (letter plus whitespace), strips it, and
returns the single-character name "a" — the returned name is shorter
than the claimed two-character minimum. -/
theorem C9_counterexample :
    extract_name_score_pairs ("a  5") = [(("a"), 5)] ∧
    ¬(2 ≤ ("a" : String).length) := by
  constructor
  · with_unfolding_all decide
  · decide

/-- Claim C9 amended: every pair returned by the extractor has a
nonempty name that contains no digit and no repeated adjacent
whitespace (the matched run has at least 2 characters, but the trailing
whitespace that satisfied the minimum is stripped, so the returned name
can be a single character); pairs are found left to right without
overlap. -/
theorem C9_amended_name_shape (text : String) (p : String × ℚ)
    (hp : p ∈ extract_name_score_pairs text) :
    p.1 ≠ "" ∧ (∀ c ∈ p.1.data, isPyDigit c = false) ∧ noRepWs p.1.data := by
  unfold extract_name_score_pairs at hp
  rcases List.mem_filterMap.mp hp with ⟨q, hq, hmap⟩
  by_cases he : (stripL q.1).isEmpty
  · rw [if_pos he] at hmap
    cases hmap
  · rw [if_neg he] at hmap
    cases hmap
    have hne : stripL q.1 ≠ [] := by
      simpa [List.isEmpty_iff] using he
    have hchars : ∀ c ∈ q.1, isNameChar c = true :=
      findPairsF_chars _ _ q.1 q.2 (by simpa using hq)
    refine ⟨?_, ?_, ?_⟩
    · intro hc
      exact collapseWs_ne_nil _ hne (congrArg String.data hc)
    · intro c hc
      rcases mem_collapseWs _ _ hc with rfl | hmem
      · decide
      · exact nameChar_not_digit c (hchars c (mem_stripL _ _ hmem))
    · exact noRepWs_collapseWs _

/-- Witness for the amended C9 on the pair extracted from
"Alice 28.5". -/
theorem C9_amended_witness :
    ("Alice" : String) ≠ "" ∧ (∀ c ∈ ("Alice" : String).data, isPyDigit c = false) ∧
      noRepWs ("Alice" : String).data :=
  C9_amended_name_shape ("Alice 28.5") (("Alice"), 57/2) (by with_unfolding_all decide)

/-- Claim C2 counterexample: for the single-round spec scenario the
engine's complete per-tournament output is the two tables enumerated
below — a team table keyed by the two team labels and a speaker table
keyed by the four individual names (src/app.py lines 250-305 build no
other table) — so no duo-keyed leaderboard is produced, although the
spec's pairwise duo expansion of the affirmative side is the nonempty
[(Alice, Bob)]. -/
theorem C2_counterexample :
    teamRowsOf (processTournamentRounds scName [scDf]).1.teams =
      [⟨("Team X"), 1, 1, 1, 111/2⟩, ⟨("Team Y"), 0, 1, 0, 51⟩] ∧
    spkRowsOf (processTournamentRounds scName [scDf]).1.spks =
      [⟨("Alice"), 57/2, 1, 1⟩, ⟨("Bob"), 27, 1, 1⟩, ⟨("Carol"), 26, 1, 0⟩,
       ⟨("Dave"), 25, 1, 0⟩] ∧
    specDuoPairs ((extract_name_score_pairs ("Alice 28.5 Bob 27.0")).map Prod.fst) =
      [(("Alice"), ("Bob"))] := by
  refine ⟨?_, ?_, ?_⟩
  · with_unfolding_all decide
  · with_unfolding_all decide
  · with_unfolding_all decide

/-- Claim C2 amended: the engine produces exactly two per-tournament
leaderboards — teams and speakers — whose records are keyed by the
single accumulated team labels and speaker names respectively; no duo
leaderboard, duo key, or duo skill score is computed.  (The `DuoKey`
canonicalization written from the spec is indeed order-insensitive.) -/
theorem C2_amended_no_duos :
    (∀ a b : String, specDuoKey a b = specDuoKey b a) ∧
    (∀ (tname : String) (dfs : List RoundDf),
      (teamRowsOf (processTournamentRounds tname dfs).1.teams).map (fun r => r.team) =
        (processTournamentRounds tname dfs).1.teams.map Prod.fst ∧
      (spkRowsOf (processTournamentRounds tname dfs).1.spks).map (fun r => r.name) =
        (processTournamentRounds tname dfs).1.spks.map Prod.fst) := by
  constructor
  · intro a b
    unfold specDuoKey
    by_cases h1 : a ≤ b
    · by_cases h2 : b ≤ a
      · have he : a = b := le_antisymm h1 h2
        subst he
        rfl
      · rw [if_pos h1, if_neg h2]
    · have h2 : b ≤ a := le_of_not_le h1
      rw [if_neg h1, if_pos h2]
  · intro tname dfs
    constructor
    · simp [teamRowsOf, List.map_map]
    · simp [spkRowsOf, List.map_map]

/-- Claim C10: a row whose affirmative team cell is blank after trimming
contributes nothing to any team's aggregates — the team update reduces
to the negative side's alone and every other key is untouched — while
the participants extracted from the affirmative score cell are still
credited with rounds, speaks and (if their side won) wins; concretely,
on `c10Df` Alice is credited one round and one win although the team
table records only "Team Y". -/
theorem C10_blank_team_cell (cl : ColsR) (st : TState) (row : Row)
    (ha : affTeamOf cl row = "") :
    ((processRow cl st row).teams =
      addTeam st.teams (negTeamOf cl row) (classifyNeg (winnerOf cl row))
        (((negPairsOf cl row).map Prod.snd).sum)) ∧
    (∀ k, k ≠ negTeamOf cl row →
      getStat (processRow cl st row).teams k TeamStats.init =
        getStat st.teams k TeamStats.init) ∧
    (∀ n, n ≠ "" →
      (getStat (processRow cl st row).spks n SpkStats.init).rounds =
        (getStat st.spks n SpkStats.init).rounds +
          ((affPairsOf cl row).filter (fun p => stripStr p.1 = n)).length +
          ((negPairsOf cl row).filter (fun p => stripStr p.1 = n)).length ∧
      (getStat (processRow cl st row).spks n SpkStats.init).speaks =
        (getStat st.spks n SpkStats.init).speaks +
          (((affPairsOf cl row).filter (fun p => stripStr p.1 = n)).map Prod.snd).sum +
          (((negPairsOf cl row).filter (fun p => stripStr p.1 = n)).map Prod.snd).sum ∧
      (getStat (processRow cl st row).spks n SpkStats.init).wins =
        (getStat st.spks n SpkStats.init).wins +
          (if classifyAff (winnerOf cl row) then
            ((affPairsOf cl row).filter (fun p => stripStr p.1 = n)).length else 0) +
          (if classifyNeg (winnerOf cl row) then
            ((negPairsOf cl row).filter (fun p => stripStr p.1 = n)).length else 0)) ∧
    ((getStat (processTournamentRounds scName [c10Df]).1.spks ("Alice")
        SpkStats.init).rounds = 1 ∧
      (getStat (processTournamentRounds scName [c10Df]).1.spks ("Alice")
        SpkStats.init).wins = 1 ∧
      (processTournamentRounds scName [c10Df]).1.teams.map Prod.fst = [("Team Y")]) := by
  refine ⟨?_, ?_, ?_, ?_, ?_, ?_⟩
  · rw [processRow_teams, ha, addTeam_empty]
  · intro k hk
    rw [processRow_teams, ha, addTeam_empty, getStat_addTeam_ne _ _ _ _ _ hk]
  · intro n hn
    rw [processRow_spk_stats cl st row n hn]
    exact ⟨rfl, rfl, rfl⟩
  · with_unfolding_all decide
  · with_unfolding_all decide
  · with_unfolding_all decide

/-- Witness for C10 at the concrete blank-affirmative row `c10Row`. -/
theorem C10_witness :
    (getStat (processRow ⟨("Aff"), ("Neg"), some ("Win"), some ("Aff Points"),
        some ("Neg Points")⟩ TState.init c10Row).spks ("Alice") SpkStats.init).rounds = 1 ∧
    (processRow ⟨("Aff"), ("Neg"), some ("Win"), some ("Aff Points"),
        some ("Neg Points")⟩ TState.init c10Row).teams =
      addTeam TState.init.teams
        (negTeamOf ⟨("Aff"), ("Neg"), some ("Win"), some ("Aff Points"),
          some ("Neg Points")⟩ c10Row)
        (classifyNeg (winnerOf ⟨("Aff"), ("Neg"), some ("Win"), some ("Aff Points"),
          some ("Neg Points")⟩ c10Row))
        (((negPairsOf ⟨("Aff"), ("Neg"), some ("Win"), some ("Aff Points"),
          some ("Neg Points")⟩ c10Row).map Prod.snd).sum) := by
  have h := C10_blank_team_cell ⟨("Aff"), ("Neg"), some ("Win"), some ("Aff Points"),
    some ("Neg Points")⟩ TState.init c10Row (by with_unfolding_all decide)
  refine ⟨?_, h.1⟩
  rw [((h.2.2.1) ("Alice") (by with_unfolding_all decide)).1]
  with_unfolding_all decide
